import Mathlib

/-!
Verification development for the layered LED-matrix compositor and animation
scheduler of `advanced_matrix_display.py` (class `AdvancedMatrixDisplay`,
`Layer`, `ColorEffect`, and the animation routines built on them).

The Python code manipulates Pillow `RGBA` images and rational/float scalars.
The embedding below models an image as a width, a height and a total pixel
function (only coordinates inside the bounds are meaningful), a pixel as four
natural-number channels in `0..255`, Python floats as rationals (all constants
appearing in the modelled routines are exactly representable), and fallible
Python operations as `Except String`.  The pixel-level blending arithmetic is
translated from the Pillow C sources that the Python calls dispatch to
(`Paste.c`, `Blend.c`, `ImagingUtils.h`), since those define what
`Image.paste`, `Image.blend` and `Image.composite` actually compute.
-/

namespace MTA

/-- One RGBA pixel; channels are naturals in `0..255`. -/
structure Pixel where
  r : ℕ
  g : ℕ
  b : ℕ
  a : ℕ
deriving DecidableEq, Repr

/-- A Pillow `RGBA` image: dimensions plus a total pixel function.  Pixels at
coordinates outside `width × height` are junk and never observed by the
theorems below. -/
structure Img where
  width : ℕ
  height : ℕ
  px : ℕ → ℕ → Pixel

/-- Pillow's `MULDIV255` macro from `ImagingUtils.h`:
`tmp = a*b + 128; ((tmp >> 8) + tmp) >> 8`, i.e. division by 255 with
rounding, computed with shifts. -/
def muldiv255 (a b : ℕ) : ℕ :=
  let t := a * b + 128
  (t / 256 + t) / 256

/-- Pillow's `BLEND` macro from `ImagingUtils.h`: interpolate destination and
source channel values by a mask value `m ∈ 0..255`. -/
def pasteBlend (m dst src : ℕ) : ℕ :=
  muldiv255 dst (255 - m) + muldiv255 src m

/-- Python's `int()` on a rational: truncation toward zero. -/
def pyInt (q : ℚ) : ℤ :=
  if 0 ≤ q then ⌊q⌋ else -⌊-q⌋

/-- Python's `round()` on a rational: round half to even. -/
def pyRound (q : ℚ) : ℤ :=
  if Int.fract q < 1/2 then ⌊q⌋
  else if 1/2 < Int.fract q then ⌊q⌋ + 1
  else if ⌊q⌋ % 2 = 0 then ⌊q⌋ else ⌊q⌋ + 1

/-- Clamp an integer into the `UINT8` range (Pillow's `CLIP8`). -/
def clip8 (z : ℤ) : ℕ :=
  (max 0 (min 255 z)).toNat

/-- The opacity scaling step of `composite_layers` (lines 172-175):
`alpha = layer_img.split()[-1]; alpha = alpha.point(lambda p: p * opacity);
layer_img.putalpha(alpha)`.  Pillow's `Image.point` builds a lookup table by
evaluating the lambda at `0..255`, rounds each entry with Python `round`
(half to even) and clips it to `0..255`; `putalpha` replaces the alpha band. -/
def scaleAlpha (img : Img) (o : ℚ) : Img :=
  { img with px := fun u v =>
      let p := img.px u v
      { p with a := clip8 (pyRound ((p.a : ℚ) * o)) } }

/-- `dst.paste(src, (x, y), mask)` for `RGBA` images with an `RGBA` mask,
per Pillow's `paste_mask_RGBA` in `Paste.c`: the mask's alpha band selects,
per pixel, a copy (`mask = 255`), the untouched destination (`mask = 0`), or a
`BLEND` of every band including alpha.  The pasted region is clipped to the
destination bounds; source coordinates outside the source are not read. -/
def pasteWithMask (dst src mask : Img) (x y : ℤ) : Img :=
  { dst with px := fun u v =>
      let sx : ℤ := (u : ℤ) - x
      let sy : ℤ := (v : ℤ) - y
      if u < dst.width ∧ v < dst.height ∧
         0 ≤ sx ∧ sx < (src.width : ℤ) ∧ 0 ≤ sy ∧ sy < (src.height : ℤ) then
        let sp := src.px sx.toNat sy.toNat
        let m := (mask.px sx.toNat sy.toNat).a
        let dp := dst.px u v
        if m = 255 then sp
        else if m = 0 then dp
        else { r := pasteBlend m dp.r sp.r, g := pasteBlend m dp.g sp.g,
               b := pasteBlend m dp.b sp.b, a := pasteBlend m dp.a sp.a }
      else dst.px u v }

/-- `dst.paste(src, (x, y), src)`: the call shape used by `composite_layers`,
where the source image doubles as its own mask. -/
def pasteMask (dst src : Img) (x y : ℤ) : Img :=
  pasteWithMask dst src src x y

/-- Channelwise body of Pillow's `ImagingBlend` (`Blend.c`):
`(UINT8)(in1 + alpha * (in2 - in1))`, a C float computation truncated by the
`UINT8` cast (the value is nonnegative for `alpha ∈ [0,1]`). -/
def lerpChan (c1 c2 : ℕ) (alpha : ℚ) : ℕ :=
  (⌊(c1 : ℚ) + alpha * ((c2 : ℚ) - (c1 : ℚ))⌋).toNat

/-- The interpolated pixel produced by `Image.blend`. -/
def lerpPixel (p q : Pixel) (alpha : ℚ) : Pixel :=
  { r := lerpChan p.r q.r alpha, g := lerpChan p.g q.g alpha,
    b := lerpChan p.b q.b alpha, a := lerpChan p.a q.a alpha }

/-- `Image.blend(im1, im2, alpha)`: raises `ValueError` unless the images
match in size; otherwise copies `im1` when `alpha = 0`, copies `im2` when
`alpha = 1`, and interpolates channelwise in between (`Blend.c`). -/
def imageBlend (im1 im2 : Img) (alpha : ℚ) : Except String Img :=
  if im1.width = im2.width ∧ im1.height = im2.height then
    .ok (if alpha = 0 then im1 else if alpha = 1 then im2 else
      { im1 with px := fun u v => lerpPixel (im1.px u v) (im2.px u v) alpha })
  else .error "ValueError: images do not match"

/-- `Image.composite(im1, im2, mask)`: Pillow implements it literally as
`im2.copy()` followed by `paste(im1, None, mask)`, i.e. an alpha-masked paste
of `im1` over `im2` at the origin. -/
def imageComposite (im1 im2 mask : Img) : Img :=
  pasteWithMask im2 im1 mask 0 0

/-- The `Layer` class (lines 57-67): a positioned, opacity-scaled,
blend-moded wrapper around a bitmap with an effect chain.  Effects are the
stored callables `Image -> Image`. -/
structure Layer where
  content : Img
  x : ℤ := 0
  y : ℤ := 0
  opacity : ℚ := 1
  blend_mode : String := "normal"
  visible : Bool := true
  effects : List (Img → Img) := []

/-- `Layer.apply_effects` (lines 69-74): copy the stored bitmap and fold the
effect chain over it left to right.  The copy is the identity on image
values; it exists in the Python to protect `self.content` from in-place
mutation by effects. -/
def Layer.apply_effects (l : Layer) : Img :=
  l.effects.foldl (fun res e => e res) l.content

/-- The Python method returns the effected bitmap and assigns nothing to
`self`; modelled as returning the result together with the (unchanged)
layer. -/
def Layer.apply_effects_method (l : Layer) : Img × Layer :=
  (l.apply_effects, l)

/-- The per-layer image that `composite_layers` blends: effects applied,
then, only when `opacity < 1.0`, the alpha band scaled by the opacity. -/
def layerImage (l : Layer) : Img :=
  if l.opacity < 1 then scaleAlpha l.apply_effects l.opacity else l.apply_effects

/-- The fully transparent RGBA canvas `Image.new("RGBA", (w, h), (0,0,0,0))`. -/
def newCanvas (w h : ℕ) : Img :=
  ⟨w, h, fun _ _ => ⟨0, 0, 0, 0⟩⟩

/-- The per-layer body of `composite_layers` (lines 164-183): skip invisible
layers, apply effects, scale alpha when `opacity < 1.0`, then dispatch on the
blend-mode string: `"normal"` pastes with the layer image as mask at
`(x, y)`; `"add"` calls `Image.blend(result, layer_img, opacity)`;
`"multiply"` calls `Image.composite(layer_img, result, layer_img)`; any other
string (including `"additive"`) matches no branch and leaves the accumulator
untouched. -/
def blendStep (acc : Img) (l : Layer) : Except String Img :=
  if l.visible = false then .ok acc else
  let layer_img := layerImage l
  if l.blend_mode = "normal" then .ok (pasteMask acc layer_img l.x l.y)
  else if l.blend_mode = "add" then imageBlend acc layer_img l.opacity
  else if l.blend_mode = "multiply" then .ok (imageComposite layer_img acc layer_img)
  else .ok acc

/-- `AdvancedMatrixDisplay.composite_layers` (lines 160-189): fold the layer
stack over a transparent canvas, then apply the global effects in order. -/
def composite_layers (w h : ℕ) (layers : List Layer)
    (global_effects : List (Img → Img)) : Except String Img := do
  let res ← layers.foldlM blendStep (newCanvas w h)
  return global_effects.foldl (fun r e => e r) res

/-- Observe one pixel of a composited result (`none` when compositing
raised). -/
def exPx (r : Except String Img) (u v : ℕ) : Option Pixel :=
  match r with
  | .ok i => some (i.px u v)
  | .error _ => none

/-- Whether canvas coordinate `(u, v)` is covered by an image pasted at
`(x, y)`. -/
def covered (src : Img) (x y : ℤ) (u v : ℕ) : Prop :=
  0 ≤ (u : ℤ) - x ∧ (u : ℤ) - x < (src.width : ℤ) ∧
  0 ≤ (v : ℤ) - y ∧ (v : ℤ) - y < (src.height : ℤ)

instance (src : Img) (x y : ℤ) (u v : ℕ) : Decidable (covered src x y u v) := by
  unfold covered; infer_instance

/-- The source pixel of `src` (pasted at `(x, y)`) that lands on canvas
coordinate `(u, v)`. -/
def srcPx (src : Img) (x y : ℤ) (u v : ℕ) : Pixel :=
  src.px ((u : ℤ) - x).toNat ((v : ℤ) - y).toNat

/-- Modelled from the spec: a per-pixel multiplicative blend of the layer's
pixels with the accumulator's pixels, the behaviour §4.4 and the claim assign
to blend mode `multiply` (channelwise product rescaled by 255; no such
operation appears in `composite_layers`). -/
def specMultiplyBlend (acc src : Img) : Img :=
  { acc with px := fun u v =>
      let ap := acc.px u v
      let sp := src.px u v
      { r := muldiv255 ap.r sp.r, g := muldiv255 ap.g sp.g,
        b := muldiv255 ap.b sp.b, a := muldiv255 ap.a sp.a } }

/-! ## Scrolling text (`scroll_text`, lines 280-328)

For `direction = LEFT` the routine sets `start_x = self.width`,
`end_x = -text_img.width`, `step = -speed`, then renders a frame at `int(x)`
for `x = start_x, start_x + step, ...` while `x > end_x` holds (checked before
each render).  With `speed = 1.0` every value of `x` is an exact integer, so
the loop is embedded over `ℤ`.  One pass of the loop is modelled (the outer
`while self.is_running` repeats passes when `loop=True`); `is_running` is held
true throughout the pass. -/

/-- The list of `x` positions at which one pass of the leftward scroll loop
renders, starting at `x` with step `-1` and exclusive bound `end_x`. -/
def scrollLoopLeft (x end_x : ℤ) : List ℤ :=
  if end_x < x then x :: scrollLoopLeft (x - 1) end_x else []
termination_by (x - end_x).toNat
decreasing_by omega

/-- Rendered `x` positions for a canvas `width` pixels wide and a text image
`textWidth` pixels wide, scrolled left at one pixel per frame. -/
def scroll_frames (width textWidth : ℕ) : List ℤ :=
  scrollLoopLeft (width : ℤ) (-(textWidth : ℤ))

/-! ## Fade transition (`fade_transition`, lines 330-352)

`steps = int(duration * 30)`; then for `i in range(steps + 1)` the routine
sets every from-layer's opacity to `1 - i/steps` and every to-layer's opacity
to `i/steps` and renders.  Python division raises `ZeroDivisionError` when
`steps = 0` (the first iteration computes `0 / 0`); a negative `steps` makes
`range(steps + 1)` empty.  `is_running` is held true, so the trailing break
never fires.  The model returns the list of (from-opacity, to-opacity) pairs
in render order, or the raised error. -/

/-- Python `/` on rationals: `ZeroDivisionError` on a zero divisor. -/
def pyDiv (a b : ℚ) : Except String ℚ :=
  if b = 0 then .error "ZeroDivisionError" else .ok (a / b)

/-- The opacity schedule of `fade_transition`'s `animation_func`. -/
def fade_transition (duration : ℚ) : Except String (List (ℚ × ℚ)) :=
  let steps := pyInt (duration * 30)
  (List.range (steps + 1).toNat).mapM fun i : ℕ => do
    let alpha ← pyDiv (i : ℚ) ((steps : ℤ) : ℚ)
    return (1 - alpha, alpha)

/-! ## The particle system (`particle_system`, lines 503-564)

The nested class `Particle` is declared inside the method.  Its `__init__`
body evaluates `np.random.uniform(0, self.width)`, where `self` is the
`Particle` instance being constructed (the method parameter shadows the
display's `self`), so the very first attribute access looks up `width` on a
`Particle` whose attribute table is still empty. -/

/-- Python attribute lookup on the nested `Particle` instance: consult the
instance attribute table (the class defines no attributes), raising
`AttributeError` on a miss. -/
def particleGetattr (attrs : List (String × ℚ)) (name : String) :
    Except String ℚ :=
  match attrs.lookup name with
  | some v => .ok v
  | none => .error ("AttributeError: Particle object has no attribute " ++ name)

/-- The start of `Particle.__init__` (lines 508-514): evaluate
`np.random.uniform(0, self.width)` for the first assignment `self.x = ...`.
The random draw is a parameter; the attribute table of the fresh instance is
empty at this point. -/
def particleInitPy (randUniform : ℚ → ℚ → ℚ) : Except String (List (String × ℚ)) := do
  let w ← particleGetattr [] "width"
  return [("x", randUniform 0 w)]

/-! ## The animation scheduler (`start_animation` / `stop_animation`,
lines 566-578)

`start_animation` calls `stop_animation` (which sets the shared flag
`self.is_running = False` and then `thread.join(timeout=1)`), sets
`self.is_running = True`, and starts the new routine on a fresh thread.
Every routine is a loop `while self.is_running: ... self.render() ...`.

The embedding is an interleaving transition system over the shared state.
The first routine is mid-loop (`atCheck`) when the superseding
`start_animation` call begins.  `join(timeout=1)` has two outcomes: it
returns because the first routine exited (`joinExited`), or because the one
second timeout elapsed with the routine still alive (`joinTimeout`) — real
time is abstracted into this nondeterministic choice. -/

/-- Render events, tagged by which routine performed them. -/
inductive Ev
  | render1
  | render2
deriving DecidableEq, Repr

/-- Program counter of a routine's `while self.is_running` loop. -/
inductive RPc
  | atCheck
  | atRender
  | exited
deriving DecidableEq, Repr

/-- Atomic actions of the two routines and of the superseding
`start_animation` call (the main thread). -/
inductive SAct
  | stopSignal
  | joinExited
  | joinTimeout
  | setRunning
  | spawn
  | r1Check
  | r1Render
  | r2Check
  | r2Render
deriving DecidableEq, Repr

/-- Shared scheduler state: the `is_running` flag, both routines' program
counters (`r2 = none` before its thread starts), the main thread's position
inside the second `start_animation` call (0 = about to signal stop, 1 =
joining, 2 = join returned, 3 = flag re-set, 4 = thread spawned), and the
render events so far. -/
structure Sch where
  is_running : Bool
  r1 : RPc
  r2 : Option RPc
  mainPc : ℕ
  events : List Ev
deriving DecidableEq, Repr

/-- One interleaving step; `none` when the action is not enabled. -/
def schStep (st : Sch) : SAct → Option Sch
  | .stopSignal =>
      if st.mainPc = 0 then some { st with is_running := false, mainPc := 1 } else none
  | .joinExited =>
      if st.mainPc = 1 ∧ st.r1 = .exited then some { st with mainPc := 2 } else none
  | .joinTimeout =>
      if st.mainPc = 1 then some { st with mainPc := 2 } else none
  | .setRunning =>
      if st.mainPc = 2 then some { st with is_running := true, mainPc := 3 } else none
  | .spawn =>
      if st.mainPc = 3 then some { st with r2 := some .atCheck, mainPc := 4 } else none
  | .r1Check =>
      if st.r1 = .atCheck then
        some { st with r1 := if st.is_running then .atRender else .exited }
      else none
  | .r1Render =>
      if st.r1 = .atRender then
        some { st with r1 := .atCheck, events := st.events ++ [.render1] }
      else none
  | .r2Check =>
      match st.r2 with
      | some .atCheck =>
          some { st with r2 := some (if st.is_running then RPc.atRender else RPc.exited) }
      | _ => none
  | .r2Render =>
      match st.r2 with
      | some .atRender =>
          some { st with r2 := some RPc.atCheck, events := st.events ++ [.render2] }
      | _ => none

/-- Run a list of actions; `none` as soon as one is not enabled. -/
def schRun (st : Sch) : List SAct → Option Sch
  | [] => some st
  | a :: tr =>
      match schStep st a with
      | some st2 => schRun st2 tr
      | none => none

/-- Initial state: routine 1 is running (at its loop check) and the
superseding `start_animation` call is about to execute. -/
def schInit : Sch :=
  { is_running := true, r1 := .atCheck, r2 := none, mainPc := 0, events := [] }

/-- No frame of the first routine is rendered after a frame of the second:
the event list is a block of `render1`s followed by a block of `render2`s. -/
def orderedEvents (l : List Ev) : Bool :=
  (l.dropWhile (fun e => decide (e = Ev.render1))).all (fun e => decide (e = Ev.render2))

/-! ## The scheduler's treatment of a raising routine

`start_animation` runs `animation_func` directly as the thread target; no
repository code wraps the call in `try`/`except`, so an exception raised in
the routine body escapes all repository code to the thread boundary, where
the Python runtime terminates only that thread.  `self.is_running` is written
by nothing on that path. -/

/-- Scheduler-visible state around a worker thread. -/
structure AnimState where
  is_running : Bool
  thread_alive : Bool
deriving DecidableEq, Repr

/-- `start_animation`'s state effect after `stop_animation` returns: set the
flag and start the worker thread. -/
def start_animation (st : AnimState) : AnimState :=
  { st with is_running := true, thread_alive := true }

/-- The worker thread executing the routine to completion: a normal return
or a raised fault both terminate the thread; the fault (second component)
escapes uncaught because `start_animation` installs no handler, and no
repository code touches `is_running` on either path. -/
def runWorker (routine : Except String Unit) (st : AnimState) :
    AnimState × Option String :=
  match routine with
  | .ok _ => ({ st with thread_alive := false }, none)
  | .error f => ({ st with thread_alive := false }, some f)

/-! ## Helper lemmas -/

/-- A `mapM` over `Except` whose body never raises returns the plain map. -/
theorem mapM_ok {α β : Type} (f : α → Except String β) (g : α → β) (l : List α)
    (h : ∀ x ∈ l, f x = .ok (g x)) : l.mapM f = .ok (l.map g) := by
  induction l with
  | nil => rfl
  | cons a t ih =>
    rw [List.mapM_cons, h a (by simp), ih (fun x hx => h x (by simp [hx]))]
    rfl

/-- `pyRound` is the identity on natural-number values. -/
theorem pyRound_natCast (n : ℕ) : pyRound ((n : ℕ) : ℚ) = (n : ℤ) := by
  rw [pyRound, Int.fract_natCast]
  norm_num

/-- The effect fold over an empty chain returns the content. -/
theorem apply_effects_nil (l : Layer) (h : l.effects = []) :
    l.apply_effects = l.content := by
  simp [Layer.apply_effects, h]

/-- Pointwise value of `scaleAlpha`. -/
theorem scaleAlpha_px (img : Img) (o : ℚ) (u v : ℕ) :
    (scaleAlpha img o).px u v =
      { img.px u v with a := clip8 (pyRound (((img.px u v).a : ℚ) * o)) } :=
  rfl

/-- `blendStep` on a visible `"normal"`-mode layer is the alpha-masked paste
of the layer image at `(x, y)`. -/
theorem blendStep_normal (acc : Img) (l : Layer) (hv : l.visible = true)
    (hm : l.blend_mode = "normal") :
    blendStep acc l = .ok (pasteMask acc (layerImage l) l.x l.y) := by
  rw [blendStep, hv, hm]
  simp

/-- `blendStep` on a visible `"add"`-mode layer calls `Image.blend`. -/
theorem blendStep_add (acc : Img) (l : Layer) (hv : l.visible = true)
    (hm : l.blend_mode = "add") :
    blendStep acc l = imageBlend acc (layerImage l) l.opacity := by
  rw [blendStep, hv, hm]
  simp

/-- `blendStep` on a visible `"multiply"`-mode layer calls `Image.composite`. -/
theorem blendStep_multiply (acc : Img) (l : Layer) (hv : l.visible = true)
    (hm : l.blend_mode = "multiply") :
    blendStep acc l = .ok (imageComposite (layerImage l) acc (layerImage l)) := by
  rw [blendStep, hv, hm]
  simp

/-- `blendStep` on a visible layer whose mode string matches no branch. -/
theorem blendStep_additive (acc : Img) (l : Layer) (hv : l.visible = true)
    (hm : l.blend_mode = "additive") :
    blendStep acc l = .ok acc := by
  rw [blendStep, hv, hm]
  simp

/-- Compositing a single visible `"normal"` layer with no global effects. -/
theorem composite_layers_single (w h : ℕ) (l : Layer) (hv : l.visible = true)
    (hm : l.blend_mode = "normal") :
    composite_layers w h [l] [] =
      .ok (pasteMask (newCanvas w h) (layerImage l) l.x l.y) := by
  rw [composite_layers]
  simp [List.foldlM, blendStep_normal (newCanvas w h) l hv hm]

/-- Pointwise value of `pasteWithMask` at an in-bounds, covered pixel. -/
theorem pasteWithMask_px_in (dst src mask : Img) (x y : ℤ) (u v : ℕ)
    (hu : u < dst.width) (hv2 : v < dst.height) (hc : covered src x y u v) :
    (pasteWithMask dst src mask x y).px u v =
      (if (srcPx mask x y u v).a = 255 then srcPx src x y u v
       else if (srcPx mask x y u v).a = 0 then dst.px u v
       else { r := pasteBlend (srcPx mask x y u v).a (dst.px u v).r (srcPx src x y u v).r,
              g := pasteBlend (srcPx mask x y u v).a (dst.px u v).g (srcPx src x y u v).g,
              b := pasteBlend (srcPx mask x y u v).a (dst.px u v).b (srcPx src x y u v).b,
              a := pasteBlend (srcPx mask x y u v).a (dst.px u v).a (srcPx src x y u v).a }) := by
  obtain ⟨h1, h2, h3, h4⟩ := hc
  show (if u < dst.width ∧ v < dst.height ∧ 0 ≤ (u : ℤ) - x ∧ (u : ℤ) - x < (src.width : ℤ) ∧
          0 ≤ (v : ℤ) - y ∧ (v : ℤ) - y < (src.height : ℤ) then _ else _) = _
  rw [if_pos ⟨hu, hv2, h1, h2, h3, h4⟩]
  rfl

/-- Pointwise value of `pasteWithMask` at a pixel the paste does not touch. -/
theorem pasteWithMask_px_out (dst src mask : Img) (x y : ℤ) (u v : ℕ)
    (h : ¬(u < dst.width ∧ v < dst.height ∧ 0 ≤ (u : ℤ) - x ∧ (u : ℤ) - x < (src.width : ℤ) ∧
           0 ≤ (v : ℤ) - y ∧ (v : ℤ) - y < (src.height : ℤ))) :
    (pasteWithMask dst src mask x y).px u v = dst.px u v := by
  show (if u < dst.width ∧ v < dst.height ∧ 0 ≤ (u : ℤ) - x ∧ (u : ℤ) - x < (src.width : ℤ) ∧
          0 ≤ (v : ℤ) - y ∧ (v : ℤ) - y < (src.height : ℤ) then _ else _) = _
  rw [if_neg h]

/-! ## Claim C9 -/

/-- C9: for every layer, `apply_effects` applies the effect chain to a copy of
the stored bitmap and returns it without mutating the layer: the method leaves
the layer (hence `layer.content`) unchanged, an empty effect chain returns a
bitmap equal to the stored one, and effects compose left to right.  In this
value-level embedding the method is deterministic by construction, so repeated
calls on unchanged state return equal bitmaps. -/
theorem c9_apply_effects_pure (l : Layer) :
    (Layer.apply_effects_method l).2 = l ∧
    (l.effects = [] → l.apply_effects = l.content) ∧
    (∀ es : List (Img → Img), ∀ e : Img → Img,
      Layer.apply_effects { l with effects := es ++ [e] } =
        e (Layer.apply_effects { l with effects := es })) := by
  refine ⟨rfl, fun h => ?_, fun es e => ?_⟩
  · simp [Layer.apply_effects, h]
  · simp [Layer.apply_effects, List.foldl_append]

/-- A concrete layer with an empty effect chain. -/
def w9Layer : Layer := { content := ⟨1, 1, fun _ _ => ⟨1, 2, 3, 4⟩⟩ }

/-- C9 witness: the theorem applied to a concrete effect-free layer. -/
theorem c9_witness :
    (Layer.apply_effects_method w9Layer).2 = w9Layer ∧
    w9Layer.apply_effects = w9Layer.content :=
  ⟨(c9_apply_effects_pure w9Layer).1, (c9_apply_effects_pure w9Layer).2.1 rfl⟩

/-! ## Claim C4 -/

/-- C4 counterexample: start an animation whose routine raises.  Afterwards
the scheduler flag `is_running` is still `true` (the scheduler has not
transitioned to Idle, and nothing in the repository caught or logged the
fault) and the exception escaped the routine to the thread boundary — against
the claim that the exception is caught at the scheduler boundary, logged, and
moves the scheduler to Idle. -/
theorem c4_counterexample :
    (runWorker (.error "RoutineFault") (start_animation ⟨false, false⟩)).1.is_running = true ∧
    (runWorker (.error "RoutineFault") (start_animation ⟨false, false⟩)).2 =
      some "RoutineFault" :=
  ⟨rfl, rfl⟩

/-- C4 amended: when a routine raises, no repository code catches the
exception — it escapes to the thread boundary, where the Python runtime
terminates the worker thread only (the host process survives by runtime
behaviour, not by any scheduler handler) — and the scheduler does not
transition to Idle: `is_running` remains `true` after `start_animation` set
it. -/
theorem c4_fault_not_handled (st : AnimState) (f : String) :
    (runWorker (.error f) (start_animation st)).1.is_running = true ∧
    (runWorker (.error f) (start_animation st)).2 = some f ∧
    (runWorker (.error f) (start_animation st)).1.thread_alive = false :=
  ⟨rfl, rfl, rfl⟩

/-! ## Claim C8 -/

/-- C8: the particle system cannot reach its respawn logic at all.  The first
expression `Particle.__init__` evaluates is `self.width` on the freshly
constructed `Particle` (the nested class's `self` shadows the display), whose
attribute table is empty, so every `Particle()` call — and hence every call
to `particle_system` with a positive particle count — raises
`AttributeError` before any particle is updated, drawn or respawned. -/
theorem c8_particle_init_raises (randUniform : ℚ → ℚ → ℚ) :
    particleInitPy randUniform =
      .error "AttributeError: Particle object has no attribute width" :=
  rfl

/-! ## Claim C10 -/

/-- C10: when `int(duration * 30) = 0` the fade routine raises
`ZeroDivisionError` computing `alpha = i / steps` on its first iteration;
when `int(duration * 30) ≥ 1` every division is defined and the routine
completes all `steps + 1` iterations. -/
theorem c10_fade_division (d : ℚ) :
    (pyInt (d * 30) = 0 → fade_transition d = .error "ZeroDivisionError") ∧
    (1 ≤ pyInt (d * 30) →
      ∃ l, fade_transition d = .ok l ∧ (l.length : ℤ) = pyInt (d * 30) + 1) := by
  constructor
  · intro h
    simp only [fade_transition, h]
    rfl
  · intro h
    set N : ℤ := pyInt (d * 30) with hN
    have hne : ((N : ℤ) : ℚ) ≠ 0 := by
      exact_mod_cast (by omega : N ≠ 0)
    refine ⟨(List.range (N + 1).toNat).map
      (fun i : ℕ => (1 - (i : ℚ) / ((N : ℤ) : ℚ), (i : ℚ) / ((N : ℤ) : ℚ))), ?_, ?_⟩
    · simp only [fade_transition, ← hN]
      refine mapM_ok _ _ _ (fun i _ => ?_)
      rw [pyDiv, if_neg hne]
      rfl
    · rw [List.length_map, List.length_range]
      omega

/-- C10 witness: `duration = 1/60` (so `int(duration*30) = 0`) raises, and
`duration = 1` (so `int(duration*30) = 30`) completes 31 iterations. -/
theorem c10_witness :
    fade_transition (1/60) = .error "ZeroDivisionError" ∧
    ∃ l, fade_transition 1 = .ok l ∧ (l.length : ℤ) = pyInt ((1 : ℚ) * 30) + 1 :=
  ⟨(c10_fade_division (1/60)).1 (by norm_num [pyInt]),
   (c10_fade_division 1).2 (by norm_num [pyInt])⟩

/-! ## Claim C3 counterexample -/

/-- A fully opaque 1×1 layer at opacity `1/5`, blend mode `normal`. -/
def cex3Layer : Layer := { content := ⟨1, 1, fun _ _ => ⟨0, 0, 0, 255⟩⟩, opacity := 1/5 }

/-- C3 counterexample: compositing a single fully opaque layer with
`opacity = 1/5` over the transparent canvas yields output alpha 10 at the
covered pixel, not `255 · (1/5) = 51`: `composite_layers` scales the alpha
band to `51` and then pastes using that same scaled band as the mask, so the
written alpha is `muldiv255 51 51 = 10` — the opacity is applied twice. -/
theorem c3_counterexample :
    exPx (composite_layers 1 1 [cex3Layer] []) 0 0 = some ⟨0, 0, 0, 10⟩ ∧
    (10 : ℚ) ≠ 255 * (1/5 : ℚ) := by
  constructor
  · have himg : layerImage cex3Layer = scaleAlpha cex3Layer.content (1/5) := by
      rw [layerImage]
      rw [show cex3Layer.opacity = (1/5 : ℚ) from rfl]
      rw [if_pos (by norm_num : (1/5 : ℚ) < 1)]
      rfl
    have hcomp := composite_layers_single 1 1 cex3Layer rfl rfl
    rw [himg] at hcomp
    have ha : (scaleAlpha cex3Layer.content (1/5)).px 0 0 = ⟨0, 0, 0, 51⟩ := by
      rw [scaleAlpha_px]
      have h51 : ((((cex3Layer.content.px 0 0).a : ℕ) : ℚ) * (1/5 : ℚ)) = ((51 : ℕ) : ℚ) := by
        rw [show (cex3Layer.content.px 0 0).a = 255 from rfl]
        push_cast
        norm_num
      rw [h51, pyRound_natCast]
      rfl
    have hpx : (pasteMask (newCanvas 1 1) (scaleAlpha cex3Layer.content (1/5)) cex3Layer.x
        cex3Layer.y).px 0 0 = ⟨0, 0, 0, 10⟩ := by
      rw [pasteMask, pasteWithMask_px_in _ _ _ _ _ 0 0 (by decide) (by decide) (by decide)]
      rw [show srcPx (scaleAlpha cex3Layer.content (1/5)) cex3Layer.x cex3Layer.y 0 0 =
            (scaleAlpha cex3Layer.content (1/5)).px 0 0 from rfl, ha]
      decide
    rw [hcomp]
    show some _ = _
    rw [hpx]
  · norm_num

/-- `muldiv255` with a zero factor is zero. -/
theorem muldiv255_zero_left (b : ℕ) : muldiv255 0 b = 0 := by
  norm_num [muldiv255]

/-- Blending over a zero destination channel leaves only the source term. -/
theorem pasteBlend_zero_dst (m s : ℕ) : pasteBlend m 0 s = muldiv255 s m := by
  rw [pasteBlend, muldiv255_zero_left, zero_add]

/-- C3 amended: compositing one visible, fully opaque, effect-free layer with
blend mode `normal` and opacity `o ∈ [0,1]` over the transparent canvas gives,
at every covered pixel, output alpha `muldiv255 m m` — approximately
`255·o²` — where `m` is the scaled alpha band value (`round(255·o)` when
`o < 1`, else `255`).  The output alpha equals `255·o` only at `o ∈ {0,1}`:
the compositor scales the alpha band by the opacity and then pastes with that
same scaled band as the mask, so the opacity is applied twice. -/
theorem c3_alpha_squared (w h : ℕ) (l : Layer)
    (ho0 : 0 ≤ l.opacity) (ho1 : l.opacity ≤ 1)
    (hmode : l.blend_mode = "normal") (hvis : l.visible = true) (heff : l.effects = [])
    (hfull255 : ∀ u v : ℕ, u < l.content.width → v < l.content.height →
      (l.content.px u v).a = 255)
    (u v : ℕ) (hu : u < w) (hv2 : v < h)
    (hcov : covered l.content l.x l.y u v) :
    ∃ r, composite_layers w h [l] [] = .ok r ∧
      (r.px u v).a =
        muldiv255 (if l.opacity < 1 then clip8 (pyRound (255 * l.opacity)) else 255)
                  (if l.opacity < 1 then clip8 (pyRound (255 * l.opacity)) else 255) := by
  obtain ⟨h1, h2, h3, h4⟩ := hcov
  have happ : l.apply_effects = l.content := apply_effects_nil l heff
  have hsxw : ((u : ℤ) - l.x).toNat < l.content.width := by omega
  have hsyh : ((v : ℤ) - l.y).toNat < l.content.height := by omega
  have hca : (l.content.px ((u : ℤ) - l.x).toNat ((v : ℤ) - l.y).toNat).a = 255 :=
    hfull255 _ _ hsxw hsyh
  refine ⟨_, composite_layers_single w h l hvis hmode, ?_⟩
  by_cases hlt : l.opacity < 1
  · -- opacity < 1: the alpha band is scaled, then used as its own paste mask
    have himg : layerImage l = scaleAlpha l.content l.opacity := by
      rw [layerImage, if_pos hlt, happ]
    have hm : (srcPx (layerImage l) l.x l.y u v).a = clip8 (pyRound (255 * l.opacity)) := by
      rw [himg, srcPx, scaleAlpha_px, hca]
      norm_num
    rw [if_pos hlt]
    rw [pasteMask, pasteWithMask_px_in _ _ _ _ _ u v hu hv2
      (by rw [himg]; exact ⟨h1, h2, h3, h4⟩)]
    rw [hm]
    by_cases h255 : clip8 (pyRound (255 * l.opacity)) = 255
    · rw [if_pos h255, himg, srcPx, scaleAlpha_px, hca]
      norm_num
      rw [h255]
      decide
    · rw [if_neg h255]
      by_cases h0 : clip8 (pyRound (255 * l.opacity)) = 0
      · rw [if_pos h0, h0]
        rfl
      · rw [if_neg h0]
        exact pasteBlend_zero_dst _ _
  · -- opacity = 1: no scaling; the opaque alpha band pastes the pixel whole
    have himg : layerImage l = l.content := by
      rw [layerImage, if_neg hlt, happ]
    rw [if_neg hlt]
    rw [pasteMask, pasteWithMask_px_in _ _ _ _ _ u v hu hv2
      (by rw [himg]; exact ⟨h1, h2, h3, h4⟩)]
    rw [himg, srcPx]
    rw [if_pos hca, hca]
    decide

/-- A concrete fully opaque 1×1 layer at opacity `1/2`. -/
def w3Layer : Layer := { content := ⟨1, 1, fun _ _ => ⟨0, 0, 0, 255⟩⟩, opacity := 1/2 }

/-- C3 witness: the amended theorem applied to a 1×1 canvas and an opaque
layer at opacity `1/2`. -/
theorem c3_witness :
    (composite_layers 1 1 [w3Layer] []).map (fun r => (r.px 0 0).a) =
      .ok (muldiv255
        (if w3Layer.opacity < 1 then clip8 (pyRound (255 * w3Layer.opacity)) else 255)
        (if w3Layer.opacity < 1 then clip8 (pyRound (255 * w3Layer.opacity)) else 255)) := by
  obtain ⟨r, hr, ha⟩ := c3_alpha_squared 1 1 w3Layer
    (by norm_num [w3Layer]) (by norm_num [w3Layer]) rfl rfl rfl
    (fun _ _ _ _ => rfl) 0 0 (by norm_num) (by norm_num) (by decide)
  rw [hr]
  show Except.ok ((r.px 0 0).a) = _
  rw [ha]

/-! ## Claim C1 counterexample -/

/-- A 1×1 opaque mid-gray bitmap. -/
def gray100 : Img := ⟨1, 1, fun _ _ => ⟨100, 100, 100, 255⟩⟩

/-- Bottom layer: opaque gray pasted normally, making the accumulator gray. -/
def cexNormalLayer : Layer := { content := gray100 }

/-- Top layer: the same opaque gray with blend mode `"multiply"`. -/
def cexMultiplyLayer : Layer := { content := gray100, blend_mode := "multiply" }

/-- C1 counterexample: with the accumulator holding `(100,100,100,255)`, a
`"multiply"` layer of the same opaque gray composites to `(100,100,100,255)`
— `Image.composite(layer, result, layer)` is an alpha-masked interpolation
that simply replaces the accumulator where the layer is opaque — whereas a
per-pixel multiplicative blend of the layer with the accumulator gives
`(39,39,39,255)` (`muldiv255 100 100 = 39`).  The code's `"multiply"` branch
is not a multiplicative blend. -/
theorem c1_counterexample :
    exPx (composite_layers 1 1 [cexNormalLayer, cexMultiplyLayer] []) 0 0 =
      some ⟨100, 100, 100, 255⟩ ∧
    (specMultiplyBlend ⟨1, 1, fun _ _ => ⟨100, 100, 100, 255⟩⟩ gray100).px 0 0 =
      ⟨39, 39, 39, 255⟩ ∧
    Pixel.mk 100 100 100 255 ≠ ⟨39, 39, 39, 255⟩ := by
  refine ⟨rfl, rfl, by decide⟩

/-- Interpolating with weight 0 returns the first pixel. -/
theorem lerpPixel_zero (p q : Pixel) : lerpPixel p q 0 = p := by
  cases p
  simp [lerpPixel, lerpChan]

/-- Interpolating with weight 1 returns the second pixel. -/
theorem lerpPixel_one (p q : Pixel) : lerpPixel p q 1 = q := by
  cases p with
  | mk pr pg pb pa =>
    cases q with
    | mk qr qg qb qa =>
      have hr : ∀ c1 c2 : ℕ, (c1 : ℚ) + 1 * ((c2 : ℚ) - (c1 : ℚ)) = (c2 : ℚ) := by
        intro c1 c2; ring
      simp [lerpPixel, lerpChan, hr]

/-- C1 amended: the compositor's per-layer blend dispatch, characterized per
mode.  `"normal"` is an alpha-masked paste at `(x, y)`: where the layer image
is opaque it replaces the accumulator pixel, where its alpha is 0 (or the
pixel is not covered) the accumulator is preserved.  The linear-blend mode is
keyed by the string `"add"` (not `"additive"`): it is a whole-canvas
channelwise interpolation between accumulator and layer image weighted by the
layer's opacity, defined only when the layer image has exactly the canvas
size (otherwise Pillow raises `ValueError`), and it ignores `(x, y)`.
A layer whose `blend_mode` is the literal string `"additive"` matches no
branch and is skipped.  `"multiply"` is `Image.composite(layer, acc, layer)`
— an alpha-masked paste of the layer over the accumulator at the origin: at
pixels where the layer is opaque it replaces the accumulator pixel outright
(no multiplication of channel values occurs; see the counterexample). -/
theorem c1_blend_dispatch (acc : Img) (l : Layer) (hv : l.visible = true) :
    (l.blend_mode = "normal" →
      blendStep acc l = .ok (pasteMask acc (layerImage l) l.x l.y) ∧
      ∀ u v : ℕ, u < acc.width → v < acc.height →
        (covered (layerImage l) l.x l.y u v →
          ((srcPx (layerImage l) l.x l.y u v).a = 255 →
            (pasteMask acc (layerImage l) l.x l.y).px u v =
              srcPx (layerImage l) l.x l.y u v) ∧
          ((srcPx (layerImage l) l.x l.y u v).a = 0 →
            (pasteMask acc (layerImage l) l.x l.y).px u v = acc.px u v)) ∧
        (¬ covered (layerImage l) l.x l.y u v →
          (pasteMask acc (layerImage l) l.x l.y).px u v = acc.px u v)) ∧
    (l.blend_mode = "add" →
      ((acc.width = (layerImage l).width ∧ acc.height = (layerImage l).height) →
        ∃ r, blendStep acc l = .ok r ∧
          ∀ u v : ℕ, r.px u v = lerpPixel (acc.px u v) ((layerImage l).px u v) l.opacity) ∧
      (¬ (acc.width = (layerImage l).width ∧ acc.height = (layerImage l).height) →
        blendStep acc l = .error "ValueError: images do not match")) ∧
    (l.blend_mode = "multiply" →
      blendStep acc l = .ok (imageComposite (layerImage l) acc (layerImage l)) ∧
      ∀ u v : ℕ, u < acc.width → v < acc.height →
        covered (layerImage l) 0 0 u v →
        ((layerImage l).px u v).a = 255 →
        (imageComposite (layerImage l) acc (layerImage l)).px u v =
          (layerImage l).px u v) ∧
    (l.blend_mode = "additive" → blendStep acc l = .ok acc) := by
  refine ⟨fun hm => ⟨blendStep_normal acc l hv hm, ?_⟩, fun hm => ⟨?_, ?_⟩,
    fun hm => ⟨?_, ?_⟩, fun hm => ?_⟩
  · -- "normal": pointwise characterization of the masked paste
    intro u v hu hv2
    constructor
    · intro hc
      constructor
      · intro ha
        rw [pasteMask, pasteWithMask_px_in _ _ _ _ _ u v hu hv2 hc, if_pos ha]
      · intro ha
        rw [pasteMask, pasteWithMask_px_in _ _ _ _ _ u v hu hv2 hc, if_neg (by omega), if_pos ha]
    · intro hnc
      rw [pasteMask]
      refine pasteWithMask_px_out _ _ _ _ _ u v ?_
      intro hcontra
      exact hnc ⟨hcontra.2.2.1, hcontra.2.2.2.1, hcontra.2.2.2.2.1, hcontra.2.2.2.2.2⟩
  · -- "add", matching sizes
    intro hsz
    rw [blendStep_add acc l hv hm, imageBlend, if_pos hsz]
    refine ⟨_, rfl, fun u v => ?_⟩
    by_cases h0 : l.opacity = 0
    · rw [if_pos h0, h0, lerpPixel_zero]
    · rw [if_neg h0]
      by_cases h1 : l.opacity = 1
      · rw [if_pos h1, h1, lerpPixel_one]
      · rw [if_neg h1]
  · -- "add", size mismatch
    intro hsz
    rw [blendStep_add acc l hv hm, imageBlend, if_neg hsz]
  · -- "multiply": the dispatch calls Image.composite
    exact blendStep_multiply acc l hv hm
  · -- "multiply": opaque layer pixels replace the accumulator pixel
    intro u v hu hv2 hc ha
    rw [imageComposite, pasteWithMask_px_in _ _ _ _ _ u v hu hv2 hc]
    have hsrc : srcPx (layerImage l) 0 0 u v = (layerImage l).px u v := by
      rw [srcPx]
      norm_num
    rw [hsrc, if_pos ha]
  · -- "additive" matches no branch: the layer is skipped
    exact blendStep_additive acc l hv hm

/-- A concrete opaque accumulator and layer for the C1 witness. -/
def w1Img : Img := ⟨1, 1, fun _ _ => ⟨10, 20, 30, 255⟩⟩

/-- A visible `"normal"`-mode layer over `w1Img`. -/
def w1Layer : Layer := { content := w1Img }

/-- C1 witness: the amended theorem applied to a concrete accumulator and a
concrete `"normal"` layer, instantiated at pixel `(0, 0)`. -/
theorem c1_witness :
    blendStep w1Img w1Layer = .ok (pasteMask w1Img (layerImage w1Layer) w1Layer.x w1Layer.y) ∧
    (pasteMask w1Img (layerImage w1Layer) w1Layer.x w1Layer.y).px 0 0 =
      srcPx (layerImage w1Layer) w1Layer.x w1Layer.y 0 0 :=
  ⟨((c1_blend_dispatch w1Img w1Layer rfl).1 rfl).1,
   ((((c1_blend_dispatch w1Img w1Layer rfl).1 rfl).2 0 0 (by decide) (by decide)).1
      (by decide)).1 (by decide)⟩

/-! ## Claim C2 counterexample -/

/-- An interleaving in which `join(timeout=1)` returns by timeout while the
first routine is still parked before its loop check. -/
def c2Trace : List SAct :=
  [.stopSignal, .joinTimeout, .setRunning, .spawn, .r2Check, .r2Render, .r1Check, .r1Render]

/-- C2 counterexample: after the superseding `start_animation` completes
(`mainPc = 4`), the second routine renders its first frame, and then the
first routine — which never observed the cancellation signal, because
`is_running` is the single shared flag and was already set back to `True` —
passes its loop check and renders too.  The final state has both routines
live and the event order `render2, render1`, violating both parts of the
claim (exactly one routine running; first exits before the second's first
frame). -/
theorem c2_counterexample :
    schRun schInit c2Trace =
      some { is_running := true, r1 := .atCheck, r2 := some .atCheck, mainPc := 4,
             events := [.render2, .render1] } ∧
    orderedEvents [Ev.render2, Ev.render1] = false ∧
    RPc.atCheck ≠ RPc.exited := by
  decide

/-! ## Claim C5 -/

/-- Closed form of the leftward scroll loop: the rendered positions are
`x, x-1, ..., e+1` (the bound `e` itself is excluded by the strict loop
condition). -/
theorem scrollLoopLeft_closed (n : ℕ) : ∀ x e : ℤ, (x - e).toNat = n →
    scrollLoopLeft x e = (List.range n).map (fun i : ℕ => x - (i : ℤ)) := by
  induction n with
  | zero =>
    intro x e hn
    rw [scrollLoopLeft, if_neg (by omega)]
    simp
  | succ n ih =>
    intro x e hn
    rw [scrollLoopLeft, if_pos (by omega : e < x), ih (x - 1) e (by omega)]
    rw [List.range_succ_eq_map, List.map_cons, List.map_map]
    refine congrArg₂ List.cons (by simp) ?_
    refine List.map_congr_left fun a _ => ?_
    simp only [Function.comp_apply]
    push_cast
    ring

/-- C5: with a 64-pixel-wide canvas and a text image `W` pixels wide scrolled
left one pixel per frame from `x = 64` toward `x = -W` (strict bound, checked
before each render), one pass renders exactly `64 + W` frames — start
inclusive, end exclusive — and the final rendered frame has `x = -W + 1`,
which is the smallest rendered position that is `≥ -W` (every rendered
position is `≥ -W + 1 ≥ -W`; the stepping value `-W` itself is reached only
after the last render and is never rendered). -/
theorem c5_scroll_frames (W : ℕ) :
    (scroll_frames 64 W).length = 64 + W ∧
    (scroll_frames 64 W).getLast? = some (-(W : ℤ) + 1) ∧
    (∀ z : ℤ, z ∈ scroll_frames 64 W → -(W : ℤ) ≤ z ∧ -(W : ℤ) + 1 ≤ z) := by
  have hc : scroll_frames 64 W =
      (List.range (64 + W)).map (fun i : ℕ => (64 : ℤ) - (i : ℤ)) := by
    rw [scroll_frames]
    exact scrollLoopLeft_closed (64 + W) 64 (-(W : ℤ)) (by omega)
  refine ⟨?_, ?_, ?_⟩
  · rw [hc, List.length_map, List.length_range]
  · rw [hc, List.getLast?_eq_getElem?, List.length_map, List.length_range]
    rw [List.getElem?_map, List.getElem?_range (by omega : 64 + W - 1 < 64 + W)]
    show some _ = some _
    refine congrArg some ?_
    show (64 : ℤ) - ((64 + W - 1 : ℕ) : ℤ) = -(W : ℤ) + 1
    omega
  · intro z hz
    rw [hc] at hz
    obtain ⟨i, hi, rfl⟩ := List.mem_map.1 hz
    rw [List.mem_range] at hi
    omega

/-- C5 witness: the theorem applied at text width 2 — 66 frames, last frame
at `x = -1`, and the concrete rendered position 64 is within the bounds. -/
theorem c5_witness :
    (scroll_frames 64 2).length = 64 + 2 ∧
    (scroll_frames 64 2).getLast? = some (-((2 : ℕ) : ℤ) + 1) ∧
    (-((2 : ℕ) : ℤ) ≤ 64 ∧ -((2 : ℕ) : ℤ) + 1 ≤ 64) := by
  have hm : (64 : ℤ) ∈ scroll_frames 64 2 := by
    rw [scroll_frames, scrollLoopLeft_closed 66 ((64 : ℕ) : ℤ) (-((2 : ℕ) : ℤ)) (by omega)]
    exact List.mem_map.2 ⟨0, by simp, by simp⟩
  exact ⟨(c5_scroll_frames 2).1, (c5_scroll_frames 2).2.1, (c5_scroll_frames 2).2.2 64 hm⟩

/-! ## Claim C7 -/

/-- C7: with `N = int(duration * 30) ≥ 1` (the code's realization of
`duration * fps` at the hard-coded 30 FPS), `fade_transition` renders
`N + 1` states indexed `i = 0 .. N`; at render `i` every from-layer has
opacity `1 - i/N` and every to-layer has opacity `i/N`, and the pass ends at
`(0, 1)`: old group fully transparent, new group fully opaque
(`is_running` held true throughout). -/
theorem c7_fade_schedule (d : ℚ) (h : 1 ≤ pyInt (d * 30)) :
    ∃ l, fade_transition d = .ok l ∧
      (l.length : ℤ) = pyInt (d * 30) + 1 ∧
      (∀ i : ℕ, (i : ℤ) ≤ pyInt (d * 30) →
        l[i]? = some (1 - (i : ℚ) / ((pyInt (d * 30) : ℤ) : ℚ),
                      (i : ℚ) / ((pyInt (d * 30) : ℤ) : ℚ))) ∧
      l.getLast? = some (0, 1) := by
  set N : ℤ := pyInt (d * 30) with hN
  have hne : ((N : ℤ) : ℚ) ≠ 0 := by
    exact_mod_cast (by omega : N ≠ 0)
  refine ⟨(List.range (N + 1).toNat).map
    (fun i : ℕ => (1 - (i : ℚ) / ((N : ℤ) : ℚ), (i : ℚ) / ((N : ℤ) : ℚ))), ?_, ?_, ?_, ?_⟩
  · simp only [fade_transition, ← hN]
    refine mapM_ok _ _ _ (fun i _ => ?_)
    rw [pyDiv, if_neg hne]
    rfl
  · rw [List.length_map, List.length_range]
    omega
  · intro i hi
    rw [List.getElem?_map, List.getElem?_range (by omega : i < (N + 1).toNat)]
    rfl
  · rw [List.getLast?_eq_getElem?, List.length_map, List.length_range]
    rw [List.getElem?_map, List.getElem?_range (by omega : (N + 1).toNat - 1 < (N + 1).toNat)]
    show some _ = some _
    refine congrArg some ?_
    have hcast : (((N + 1).toNat - 1 : ℕ) : ℚ) = ((N : ℤ) : ℚ) := by
      have h1 : ((N + 1).toNat - 1 : ℕ) = N.toNat := by omega
      rw [h1]
      have h2 : ((N.toNat : ℕ) : ℤ) = N := by omega
      exact_mod_cast congrArg (fun z : ℤ => (z : ℚ)) h2
    show ((1 : ℚ) - (((N + 1).toNat - 1 : ℕ) : ℚ) / ((N : ℤ) : ℚ),
          (((N + 1).toNat - 1 : ℕ) : ℚ) / ((N : ℤ) : ℚ)) = ((0 : ℚ), (1 : ℚ))
    rw [hcast, div_self hne]
    norm_num

/-- C7 witness: at `duration = 1` (`N = 30`) the pass ends with the old group
at opacity 0 and the new group at opacity 1. -/
theorem c7_witness :
    (fade_transition 1).map List.getLast? = .ok (some ((0 : ℚ), (1 : ℚ))) := by
  obtain ⟨l, h1, _, _, h4⟩ := c7_fade_schedule 1 (by norm_num [pyInt])
  rw [h1]
  show Except.ok l.getLast? = _
  rw [h4]

/-! ## Claim C2: the amended supersession guarantee -/

/-- Inductive invariant of the supersession transition system for traces in
which the join never times out: once the main thread is past the join the
first routine has exited (and exit is absorbing), the second routine exists
only after the spawn, never observes a false flag, and the event list is a
block of first-routine renders followed by a block of second-routine
renders. -/
def SchInv (st : Sch) : Prop :=
  (2 ≤ st.mainPc → st.r1 = RPc.exited) ∧
  (∀ pc, st.r2 = some pc → st.r1 = RPc.exited) ∧
  (3 ≤ st.mainPc → st.is_running = true) ∧
  (∀ pc, st.r2 = some pc → 3 ≤ st.mainPc) ∧
  st.r2 ≠ some RPc.exited ∧
  (4 ≤ st.mainPc → st.r2 ≠ none) ∧
  ∃ n m : ℕ, st.events = List.replicate n Ev.render1 ++ List.replicate m Ev.render2 ∧
    (1 ≤ m → st.r1 = RPc.exited)

/-- The initial state satisfies the invariant. -/
theorem schInv_init : SchInv schInit :=
  ⟨fun hh => absurd hh (by decide), fun _ hpc => (by cases hpc),
   fun hh => absurd hh (by decide), fun _ hpc => (by cases hpc),
   (by simp [schInit]), fun hh => absurd hh (by decide),
   0, 0, rfl, fun h1 => absurd h1 (by omega)⟩

/-- Each enabled non-timeout action preserves the invariant. -/
theorem schInv_step (st st2 : Sch) (a : SAct) (ha : a ≠ SAct.joinTimeout)
    (h : schStep st a = some st2) (hinv : SchInv st) : SchInv st2 := by
  obtain ⟨i1, i2, i3, i4, i5, i6, n, m, hev, hm⟩ := hinv
  cases a with
  | stopSignal =>
    simp only [schStep] at h
    by_cases hc : st.mainPc = 0
    · rw [if_pos hc] at h
      injection h with h2
      subst h2
      dsimp only [SchInv]
      exact ⟨fun hh => absurd hh (by omega), i2, fun hh => absurd hh (by omega),
        fun pc hpc => absurd (i4 pc hpc) (by omega), i5, fun hh => absurd hh (by omega),
        n, m, hev, hm⟩
    · rw [if_neg hc] at h
      exact absurd h (by simp)
  | joinExited =>
    simp only [schStep] at h
    by_cases hc : st.mainPc = 1 ∧ st.r1 = RPc.exited
    · obtain ⟨hc1, hc2⟩ := hc
      rw [if_pos ⟨hc1, hc2⟩] at h
      injection h with h2
      subst h2
      dsimp only [SchInv]
      exact ⟨fun _ => hc2, i2, fun hh => absurd hh (by omega),
        fun pc hpc => absurd (i4 pc hpc) (by omega), i5, fun hh => absurd hh (by omega),
        n, m, hev, hm⟩
    · rw [if_neg hc] at h
      exact absurd h (by simp)
  | joinTimeout => exact absurd rfl ha
  | setRunning =>
    simp only [schStep] at h
    by_cases hc : st.mainPc = 2
    · rw [if_pos hc] at h
      injection h with h2
      subst h2
      dsimp only [SchInv]
      have hex : st.r1 = RPc.exited := i1 (by omega)
      exact ⟨fun _ => hex, i2, fun _ => rfl, fun _ _ => le_refl 3, i5,
        fun hh => absurd hh (by omega), n, m, hev, hm⟩
    · rw [if_neg hc] at h
      exact absurd h (by simp)
  | spawn =>
    simp only [schStep] at h
    by_cases hc : st.mainPc = 3
    · rw [if_pos hc] at h
      injection h with h2
      subst h2
      dsimp only [SchInv]
      have hex : st.r1 = RPc.exited := i1 (by omega)
      exact ⟨fun _ => hex, fun _ _ => hex, fun _ => i3 (by omega), fun _ _ => by omega,
        by simp, fun _ => by simp, n, m, hev, fun _ => hex⟩
    · rw [if_neg hc] at h
      exact absurd h (by simp)
  | r1Check =>
    simp only [schStep] at h
    by_cases hc : st.r1 = RPc.atCheck
    · rw [if_pos hc] at h
      injection h with h2
      subst h2
      dsimp only [SchInv]
      exact ⟨fun hh => absurd (i1 hh) (by simp [hc]),
        fun pc hpc => absurd (i2 pc hpc) (by simp [hc]),
        i3, i4, i5, i6, n, m, hev, fun h1 => absurd (hm h1) (by simp [hc])⟩
    · rw [if_neg hc] at h
      exact absurd h (by simp)
  | r1Render =>
    simp only [schStep] at h
    by_cases hc : st.r1 = RPc.atRender
    · rw [if_pos hc] at h
      injection h with h2
      subst h2
      dsimp only [SchInv]
      have hm0 : m = 0 := by
        rcases Nat.eq_zero_or_pos m with h0 | h0
        · exact h0
        · exact absurd (hm h0) (by simp [hc])
      refine ⟨fun hh => absurd (i1 hh) (by simp [hc]),
        fun pc hpc => absurd (i2 pc hpc) (by simp [hc]),
        i3, i4, i5, i6, n + 1, 0, ?_, fun h1 => absurd h1 (by omega)⟩
      rw [hev, hm0]
      simp [List.replicate_succ']
    · rw [if_neg hc] at h
      exact absurd h (by simp)
  | r2Check =>
    simp only [schStep] at h
    cases hr2 : st.r2 with
    | none =>
      rw [hr2] at h
      simp at h
    | some pc =>
      cases pc with
      | atCheck =>
        rw [hr2] at h
        injection h with h2
        subst h2
        dsimp only [SchInv]
        have hpcge : 3 ≤ st.mainPc := i4 RPc.atCheck hr2
        have hrun : st.is_running = true := i3 hpcge
        have hite : (if st.is_running then RPc.atRender else RPc.exited) = RPc.atRender := by
          simp [hrun]
        rw [hite]
        exact ⟨fun _ => i2 _ hr2, fun _ _ => i2 _ hr2, i3, fun _ _ => hpcge,
          by simp, fun _ => by simp, n, m, hev, hm⟩
      | atRender =>
        rw [hr2] at h
        simp at h
      | exited =>
        rw [hr2] at h
        simp at h
  | r2Render =>
    simp only [schStep] at h
    cases hr2 : st.r2 with
    | none =>
      rw [hr2] at h
      simp at h
    | some pc =>
      cases pc with
      | atCheck =>
        rw [hr2] at h
        simp at h
      | atRender =>
        rw [hr2] at h
        injection h with h2
        subst h2
        dsimp only [SchInv]
        have hex : st.r1 = RPc.exited := i2 _ hr2
        have hpcge : 3 ≤ st.mainPc := i4 _ hr2
        refine ⟨fun _ => hex, fun _ _ => hex, i3, fun _ _ => hpcge, by simp,
          fun _ => by simp, n, m + 1, ?_, fun _ => hex⟩
        rw [hev, List.append_assoc, ← List.replicate_succ']
      | exited =>
        rw [hr2] at h
        simp at h

/-- Running a timeout-free trace from an invariant state lands in an
invariant state. -/
theorem schRun_inv (tr : List SAct) : ∀ st st2 : Sch, SAct.joinTimeout ∉ tr →
    SchInv st → schRun st tr = some st2 → SchInv st2 := by
  induction tr with
  | nil =>
    intro st st2 _ hinv h
    rw [schRun] at h
    injection h with h2
    subst h2
    exact hinv
  | cons a tr ih =>
    intro st st2 hnin hinv h
    rw [schRun] at h
    cases hs : schStep st a with
    | none =>
      rw [hs] at h
      simp at h
    | some stm =>
      rw [hs] at h
      have hna : a ≠ SAct.joinTimeout := by
        intro hEq
        subst hEq
        exact hnin (List.mem_cons_self _ _)
      have hntr : SAct.joinTimeout ∉ tr := fun hmem => hnin (List.mem_cons_of_mem _ hmem)
      exact ih stm st2 hntr (schInv_step st stm a hna hs hinv) h

/-- `orderedEvents` holds for a block of `render1`s followed by `render2`s. -/
theorem orderedEvents_replicate (n m : ℕ) :
    orderedEvents (List.replicate n Ev.render1 ++ List.replicate m Ev.render2) = true := by
  induction n with
  | zero =>
    cases m with
    | zero => rfl
    | succ k =>
      simp [orderedEvents, List.replicate_succ, List.dropWhile, List.all_eq_true,
        List.mem_replicate]
  | succ k ih =>
    simpa [orderedEvents, List.replicate_succ, List.dropWhile] using ih

/-- C2 amended: the supersession guarantee holds exactly when the join
observes the first routine's exit.  For every interleaving of a superseding
`start_animation` call in which `join(timeout=1)` does not time out, no frame
of the first routine is ever rendered after a frame of the second, and once
the second `start_animation` has completed the first routine has exited and
only the second routine is live.  (When the join can time out the guarantee
fails — see the counterexample: the shared `is_running` flag is re-set to
`True` before the old routine rechecks it.) -/
theorem c2_supersede_without_timeout (tr : List SAct) (st : Sch)
    (hnt : SAct.joinTimeout ∉ tr) (hrun : schRun schInit tr = some st) :
    orderedEvents st.events = true ∧
    (st.mainPc = 4 → st.r1 = RPc.exited ∧
      (st.r2 = some RPc.atCheck ∨ st.r2 = some RPc.atRender)) := by
  obtain ⟨i1, i2, i3, i4, i5, i6, n, m, hev, hm⟩ :=
    schRun_inv tr schInit st hnt schInv_init hrun
  constructor
  · rw [hev]
    exact orderedEvents_replicate n m
  · intro h4
    refine ⟨i1 (by omega), ?_⟩
    cases hr2 : st.r2 with
    | none => exact absurd hr2 (i6 (by omega))
    | some pc =>
      cases pc with
      | atCheck => exact Or.inl rfl
      | atRender => exact Or.inr rfl
      | exited => exact absurd hr2 i5

/-- A timeout-free interleaving: the first routine observes the stop signal
and exits before the join returns; then the second routine renders. -/
def c2OkTrace : List SAct :=
  [.stopSignal, .r1Check, .joinExited, .setRunning, .spawn, .r2Check, .r2Render]

/-- The state reached by `c2OkTrace`. -/
def c2OkState : Sch :=
  { is_running := true, r1 := .exited, r2 := some .atCheck, mainPc := 4,
    events := [.render2] }

/-- C2 witness: the amended theorem applied to the concrete timeout-free
interleaving. -/
theorem c2_witness :
    orderedEvents c2OkState.events = true ∧
    (c2OkState.mainPc = 4 → c2OkState.r1 = RPc.exited ∧
      (c2OkState.r2 = some RPc.atCheck ∨ c2OkState.r2 = some RPc.atRender)) :=
  c2_supersede_without_timeout c2OkTrace c2OkState (by decide) (by decide)

end MTA
